import Mathlib

/-!
Verification development for `autotst/calculators/cantherm.py`
(`AutoTST_CanTherm`): a shallow embedding of its atom/bond classifiers,
artifact writers, job-descriptor writer and orchestrator, with theorems
settling the specification's claims about them.

Python conventions used throughout the embedding:
* a Python `dict` whose keys are strings and whose values are counts is an
  association list `List (String × Nat)` in insertion order;
* the `try: d[k] += 1 except KeyError: d[k] = 1` idiom is `Dict.incr`;
* a local variable that may be unbound (`atom_type`, `bondType`) is threaded
  as an `Option String`; reading it while `none` is Python's `NameError`;
* list indexing `xs[i]` is `listIdx`, returning `IndexError` out of range;
* fallible computations return `Except PyErr _`.
-/

namespace CanTherm

/-- Python exceptions that the embedded code can raise or catch. -/
inductive PyErr where
  | nameError
  | indexError
  | ioError
  | attributeError
  | otherError (code : Nat)
  deriving DecidableEq, Repr

/-- RMG bond orders (`bond.isSingle()` / `isDouble()` / `isTriple()`). -/
inductive BondOrder where
  | single
  | double
  | triple
  deriving DecidableEq, Repr

/-- An RMG `Bond`.  `bid` models Python object identity (two distinct bond
objects hash differently in a `set` even when chemically alike); `atom1` and
`atom2` hold the element symbols of the two endpoint atoms, which is all the
classifier reads from them. -/
structure Bond where
  bid : Nat
  atom1 : String
  atom2 : String
  order : BondOrder
  deriving DecidableEq, Repr

/-- An RMG `Atom`: its element symbol, and `atom.bonds.values()` — the bond
objects incident to it (a bond is listed at both of its endpoint atoms). -/
structure RAtom where
  symbol : String
  bonds : List Bond
  deriving DecidableEq, Repr

/-- Counting dictionaries: Python string-keyed `dict`s in insertion order. -/
abbrev Dict := List (String × Nat)

/-- Python's `try: d[k] += 1 except KeyError: d[k] = 1` idiom — bump the (unique) entry for
`k`, or append a fresh entry mapping `k` to 1. -/
def Dict.incr : Dict → String → Dict
  | [], k => [(k, 1)]
  | (k', v) :: t, k => if k' = k then (k', v + 1) :: t else (k', v) :: Dict.incr t k

/-- The sum of all counts stored in a dictionary. -/
def Dict.sumValues (d : Dict) : Nat := (d.map (·.2)).sum

/-- The count stored under key `k` (0 when the key is absent). -/
def Dict.count : Dict → String → Nat
  | [], _ => 0
  | (k', v) :: t, k => if k' = k then v else Dict.count t k

/-! ## `get_atoms`

The Python loop body is three independent `if` statements assigning
`atom_type = "C" / "H" / "O"`; an atom whose element is none of these leaves
`atom_type` at whatever value the previous iteration gave it (or unbound on
the very first such atom).  Since an atom's symbol matches at most one of the
three tests, the net assignment is captured by `classifyAtom`. -/

/-- The value the loop body of `get_atoms` assigns to `atom_type` for this
atom, or `none` when the atom matches none of `isCarbon`/`isHydrogen`/
`isOxygen` and `atom_type` is left untouched. -/
def classifyAtom (a : RAtom) : Option String :=
  if a.symbol = "C" then some "C"
  else if a.symbol = "H" then some "H"
  else if a.symbol = "O" then some "O"
  else none

/-- One iteration of the `get_atoms` loop: update `atom_type` (kept stale when
`classifyAtom` gives nothing), then `atom_dict[atom_type] += 1`, raising
`NameError` if `atom_type` was never assigned. -/
def atomStep (st : Option String × Dict) (a : RAtom) :
    Except PyErr (Option String × Dict) :=
  let t := match classifyAtom a with
    | some s => some s
    | none => st.1
  match t with
  | none => .error .nameError
  | some lbl => .ok (some lbl, st.2.incr lbl)

/-- The `get_atoms` loop over a list of atoms, threading the
`atom_type`/`atom_dict` state. -/
def atomLoop : List RAtom → Option String × Dict → Except PyErr (Option String × Dict)
  | [], st => .ok st
  | a :: rest, st =>
    match atomStep st a with
    | .error e => .error e
    | .ok st' => atomLoop rest st'

/-- Function `AutoTST_CanTherm.get_atoms`, applied to the atom list of the dispatched
`rmg_mol`: returns the element-count dictionary, or the exception the loop
raises. -/
def getAtomsList (atoms : List RAtom) : Except PyErr Dict :=
  match atomLoop atoms (none, []) with
  | .error e => .error e
  | .ok st => .ok st.2

/-! ## `get_bonds`

`bondList` collects every atom-bond incidence; `list(set(bondList))`
deduplicates bond objects (object identity = structural equality of our
`Bond`, whose `bid` plays the identity role).  The classifier then tests
`bond.isSingle()` — a genuine call — but `elif bond.isDouble:` and
`elif bond.isTriple:` read the bound methods as attributes, which are always
truthy: every non-single bond enters the double branch and the triple branch
is dead code.  A bond matched by no pair test leaves `bondType` stale. -/

/-- The single-bond classification table (the branch guarded by the real call
`bond.isSingle()`), symmetric in the two endpoint symbols. -/
def singleLabel (s1 s2 : String) : Option String :=
  if s1 = "C" ∧ s2 = "C" then some "C-C"
  else if s1 = "H" ∧ s2 = "H" then some "H-H"
  else if (s1 = "C" ∧ s2 = "H") ∨ (s1 = "H" ∧ s2 = "C") then some "C-H"
  else if s1 = "O" ∧ s2 = "O" then some "O-O"
  else if (s1 = "C" ∧ s2 = "O") ∨ (s1 = "O" ∧ s2 = "C") then some "C-O"
  else if (s1 = "H" ∧ s2 = "O") ∨ (s1 = "O" ∧ s2 = "H") then some "O-H"
  else if s1 = "N" ∧ s2 = "N" then some "N-N"
  else if (s1 = "C" ∧ s2 = "N") ∨ (s1 = "N" ∧ s2 = "C") then some "N-C"
  else if (s1 = "O" ∧ s2 = "N") ∨ (s1 = "N" ∧ s2 = "O") then some "N-O"
  else if (s1 = "H" ∧ s2 = "N") ∨ (s1 = "N" ∧ s2 = "H") then some "N-H"
  else if s1 = "S" ∧ s2 = "S" then some "S-S"
  else if (s1 = "H" ∧ s2 = "S") ∨ (s1 = "S" ∧ s2 = "H") then some "S-H"
  else none

/-- The double-bond classification table (the branch guarded by the truthy
attribute access `bond.isDouble`). -/
def doubleLabel (s1 s2 : String) : Option String :=
  if s1 = "C" ∧ s2 = "C" then some "C=C"
  else if s1 = "O" ∧ s2 = "O" then some "O=O"
  else if (s1 = "C" ∧ s2 = "O") ∨ (s1 = "O" ∧ s2 = "C") then some "C=O"
  else if s1 = "N" ∧ s2 = "N" then some "N=N"
  else if (s1 = "C" ∧ s2 = "N") ∨ (s1 = "N" ∧ s2 = "C") then some "N=C"
  else if (s1 = "O" ∧ s2 = "N") ∨ (s1 = "N" ∧ s2 = "O") then some "N=O"
  else if (s1 = "O" ∧ s2 = "S") ∨ (s1 = "S" ∧ s2 = "O") then some "S=O"
  else none

/-- The triple-bond classification table as written under
`elif bond.isTriple:` — dead code in the source, transcribed here so its
intended labels can be compared with what the live control flow produces. -/
def tripleLabel (s1 s2 : String) : Option String :=
  if s1 = "C" ∧ s2 = "C" then some "C#C"
  else if s1 = "N" ∧ s2 = "N" then some "N#N"
  else if (s1 = "C" ∧ s2 = "N") ∨ (s1 = "N" ∧ s2 = "C") then some "N#C"
  else none

/-- The value the `get_bonds` loop body assigns to `bondType` for this bond
(`none` when no branch assigns and `bondType` stays stale).  `isSingle()` is
called; `isDouble`/`isTriple` are attribute accesses, so every bond that is
not single takes the (always-truthy) double branch. -/
def classifyBond (b : Bond) : Option String :=
  if b.order = .single then singleLabel b.atom1 b.atom2
  else doubleLabel b.atom1 b.atom2

/-- One iteration of the `get_bonds` counting loop, with the stale-`bondType`
semantics mirroring `atomStep`. -/
def bondStep (st : Option String × Dict) (b : Bond) :
    Except PyErr (Option String × Dict) :=
  let t := match classifyBond b with
    | some s => some s
    | none => st.1
  match t with
  | none => .error .nameError
  | some lbl => .ok (some lbl, st.2.incr lbl)

/-- The `get_bonds` counting loop over the deduplicated bond list. -/
def bondLoop : List Bond → Option String × Dict → Except PyErr (Option String × Dict)
  | [], st => .ok st
  | b :: rest, st =>
    match bondStep st b with
    | .error e => .error e
    | .ok st' => bondLoop rest st'

/-- List `bondList`: every atom-bond incidence of the structure, one entry per
atom-side occurrence of a bond. -/
def bondIncidences (atoms : List RAtom) : List Bond :=
  atoms.flatMap (·.bonds)

/-- Deduplication `bonds = list(set(bondList))`: the incidence list with duplicate bond
objects removed. -/
def distinctBonds (atoms : List RAtom) : List Bond :=
  (bondIncidences atoms).dedup

/-- Function `AutoTST_CanTherm.get_bonds`, applied to the atom list of the dispatched
`rmg_mol`. -/
def getBondsList (atoms : List RAtom) : Except PyErr Dict :=
  match bondLoop (distinctBonds atoms) (none, []) with
  | .error e => .error e
  | .ok st => .ok st.2

/-! ## Species identifier derivation

`Chem.rdinchi.InchiToInchiKey(Chem.MolToInchi(Chem.MolFromSmiles(s)))` is an
external RDKit pipeline: the embedding abstracts it as a function
`inchikey : String → String` carried by an `Env`.  The source then applies
Python's `str.strip("-N")`, which removes every leading and trailing
character belonging to the set `{'-', 'N'}` — not a two-character suffix. -/

/-- Python `s.strip(cs)`: drop characters of `cs` from both ends of `s`. -/
def pyStripChars (cs : List Char) (s : String) : String :=
  ⟨((s.data.dropWhile (· ∈ cs)).reverse.dropWhile (· ∈ cs)).reverse⟩

/-- The species identifier derived from an InChIKey-style canonical key:
`key.strip("-N")`. -/
def speciesLabelOfKey (key : String) : String :=
  pyStripChars ['-', 'N'] key

/-- External collaborators of the writers: the canonicalization pipeline
(SMILES string to InChIKey-style canonical key). -/
structure Env where
  inchikey : String → String

/-! ## Molecules, reactions and the artifact writers -/

/-- An `AutoTST_Molecule` as the writers consume it: its SMILES string and the
fields read off `mol.rmg_molecule` (atom list, symmetry number,
multiplicity). -/
structure PyMol where
  smiles : String
  atoms : List RAtom
  symmetryNumber : Int
  multiplicity : Int
  deriving DecidableEq, Repr

/-- An RMG `Molecule` as reconciliation sees it: only `toSMILES()` is read. -/
structure RMGMol where
  toSMILES : String
  deriving DecidableEq, Repr

/-- An RMG `Species` in the CanTherm result: its `label` and its `molecule`
list (rebound by reconciliation). -/
structure RMGSpecies where
  label : String
  molecule : List RMGMol
  deriving DecidableEq, Repr

/-- The `reaction` object of a CanTherm `KineticsJob`. -/
structure RMGReaction where
  reactants : List RMGSpecies
  products : List RMGSpecies
  deriving DecidableEq, Repr

/-- The `rmg_reaction` slot of an `AutoTST_Reaction`: before reconciliation it
holds the original reaction data (reactant and product molecule objects);
`set_reactants_and_products` rebinds it to the kinetics job's reaction. -/
inductive RMGReactionData where
  | mols (reactants products : List RMGMol)
  | speciesRxn (r : RMGReaction)
  deriving DecidableEq, Repr

/-- An `AutoTST_Reaction` as this calculator consumes it: reactant and
product molecule lists, a label, the transition-state structure's fields
(`rxn.ts.rmg_ts`), and the underlying `rmg_reaction` data. -/
structure TRxn where
  reactant_mols : List PyMol
  product_mols : List PyMol
  label : String
  tsAtoms : List RAtom
  tsSymmetryNumber : Int
  tsMultiplicity : Int
  rmg_reaction : RMGReactionData
  deriving DecidableEq, Repr

/-- The species identifier of one molecule:
`InchiToInchiKey(MolToInchi(MolFromSmiles(mol.smiles))).strip("-N")`. -/
def speciesLabelOf (env : Env) (mol : PyMol) : String :=
  speciesLabelOfKey (env.inchikey mol.smiles)

/-- Render one counting dictionary as the `'key': value,` lines of the
generated artifact. -/
def dictLines (d : Dict) : List String :=
  d.map (fun p => "    '" ++ p.1 ++ "': " ++ toString p.2 ++ ",")

/-- The `bonds = ...` section: a braced block when the dictionary is
non-empty, the literal `bonds = {}` line otherwise. -/
def bondsSection (bd : Dict) : List String :=
  if bd ≠ [] then "bonds = \x7b" :: dictLines bd ++ ["\x7d"]
  else ["bonds = \x7b\x7d"]

/-- The shared tail of a species/TS artifact: linearity flag, symmetry,
multiplicity, optical isomers, and the energy/geometry/frequency references
to `<stem>.log`. -/
def artifactTail (modelChemistry : String) (symNum mult : Int) (stem : String) :
    List String :=
  ["", "linear = False", "", "externalSymmetry = " ++ toString symNum, "",
   "spinMultiplicity = " ++ toString mult, "", "opticalIsomers = 1", ""] ++
  ["energy = \x7b",
   "    '" ++ modelChemistry ++ "': GaussianLog('" ++ stem ++ ".log'),",
   "\x7d", ""] ++
  ["geometry = GaussianLog('" ++ stem ++ ".log')", ""] ++
  ["frequencies = GaussianLog('" ++ stem ++ ".log')", ""]

/-- A file written by a writer: its name (within `scratch`) and its lines. -/
abbrev ArtifactFile := String × List String

/-- Method `write_cantherm_for_reacts_and_prods`: classify atoms and bonds, derive
the species identifier, render the artifact, and write `<label>.py`.
Classification failures propagate as the loop's exception. -/
def writeCanthermSpecies (env : Env) (modelChemistry : String) (mol : PyMol) :
    Except PyErr ArtifactFile :=
  match getAtomsList mol.atoms with
  | .error e => .error e
  | .ok atomDict =>
    match getBondsList mol.atoms with
    | .error e => .error e
    | .ok bondDict =>
      let label := speciesLabelOf env mol
      let output :=
        ["#!/usr/bin/env python", "# -*- coding: utf-8 -*-", "", "atoms = \x7b"] ++
        dictLines atomDict ++ ["\x7d", ""] ++
        bondsSection bondDict ++
        artifactTail modelChemistry mol.symmetryNumber mol.multiplicity label ++
        ["rotors = []"]
      .ok (label ++ ".py", output)

/-- Method `write_statmech_ts`: the same rendering over the reaction's
transition-state structure, with every stem replaced by the reaction's own
label. -/
def writeStatmechTs (modelChemistry : String) (rxn : TRxn) :
    Except PyErr ArtifactFile :=
  match getAtomsList rxn.tsAtoms with
  | .error e => .error e
  | .ok atomDict =>
    match getBondsList rxn.tsAtoms with
    | .error e => .error e
    | .ok bondDict =>
      let output :=
        ["#!/usr/bin/env python", "# -*- coding: utf-8 -*-", "", "atoms = \x7b"] ++
        dictLines atomDict ++ ["\x7d", ""] ++
        bondsSection bondDict ++
        artifactTail modelChemistry rxn.tsSymmetryNumber rxn.tsMultiplicity rxn.label ++
        ["rotors = []", ""]
      .ok (rxn.label ++ ".py", output)

/-! ## `write_cantherm_ts` (the job-descriptor writer) -/

/-- Python list indexing `xs[i]`: out-of-range raises `IndexError`. -/
def listIdx (l : List α) (n : Nat) : Except PyErr α :=
  match l.get? n with
  | some a => .ok a
  | none => .error .indexError

/-- The two species loops of `write_cantherm_ts`, threading the shared
`labels` list: for each molecule compute its label; skip it when the label
was already seen, otherwise append the label and emit a
`(smiles, label)` declaration. -/
def speciesGo (env : Env) : List PyMol → List String → List String × List (String × String)
  | [], seen => (seen, [])
  | m :: ms, seen =>
    let label := speciesLabelOf env m
    if label ∈ seen then speciesGo env ms seen
    else
      let r := speciesGo env ms (seen ++ [label])
      (r.1, (m.smiles, label) :: r.2)

/-- The deduplicated species declarations of the job descriptor: the
reactant loop runs first with an empty `labels` list, the product loop
continues with the labels the first loop collected. -/
def speciesDecls (env : Env) (rxn : TRxn) : List (String × String) :=
  let r1 := speciesGo env rxn.reactant_mols []
  let r2 := speciesGo env rxn.product_mols r1.1
  r1.2 ++ r2.2

/-- Render one species declaration line of the job descriptor. -/
def speciesLine (p : String × String) : String :=
  "species('" ++ p.1 ++ "', '" ++ p.2 ++ ".py')"

/-- Method `write_cantherm_ts`: header flags, deduplicated species
declarations, the transition-state declaration, and the reaction block —
whose construction indexes `reactant_mols[0]`, `reactant_mols[1]`,
`product_mols[0]`, `product_mols[1]` in that order and raises `IndexError`
before the file is opened when any index is missing.  The descriptor is
written to `<rxn.label>.canth.py`. -/
def writeCanthermTs (env : Env) (modelChemistry freqScaleFactor : String)
    (rxn : TRxn) : Except PyErr ArtifactFile :=
  let top :=
    ["#!/usr/bin/env python", "# -*- coding: utf-8 -*-", "",
     "modelChemistry = \"" ++ modelChemistry ++ "\"",
     "frequencyScaleFactor = " ++ freqScaleFactor,
     "useHinderedRotors = False", "useBondCorrections = False", ""] ++
    (speciesDecls env rxn).map speciesLine ++
    ["transitionState('TS', '" ++ rxn.label ++ ".py')"]
  match listIdx rxn.reactant_mols 0, listIdx rxn.reactant_mols 1,
        listIdx rxn.product_mols 0, listIdx rxn.product_mols 1 with
  | .error e, _, _, _ => .error e
  | .ok _, .error e, _, _ => .error e
  | .ok _, .ok _, .error e, _ => .error e
  | .ok _, .ok _, .ok _, .error e => .error e
  | .ok r0, .ok r1, .ok p0, .ok p1 =>
    let block :=
      ["", "reaction(",
       "    label = '" ++ rxn.label ++ "',",
       "    reactants = ['" ++ r0.smiles ++ "', '" ++ r1.smiles ++ "'],",
       "    products = ['" ++ p0.smiles ++ "', '" ++ p1.smiles ++ "'],",
       "    transitionState = 'TS',",
       "    tunneling = 'Eckart',",
       ")", "",
       "statmech('TS')",
       "kinetics('" ++ rxn.label ++ "')"]
    .ok (rxn.label ++ ".canth.py", top ++ block)

/-! ## `write_files` -/

/-- Run a sequence of writer invocations in order, collecting the files each
successful call writes to disk; the first exception aborts the sequence,
leaving exactly the earlier files written. -/
def runWriters : List (Except PyErr ArtifactFile) → List ArtifactFile × Option PyErr
  | [] => ([], none)
  | .error e :: _ => ([], some e)
  | .ok f :: rest =>
    let r := runWriters rest
    (f :: r.1, r.2)

/-- Method `write_files`: a species artifact for every reactant, then every
product, then the transition-state artifact, then the job descriptor, in
that order.  The result is the list of files actually written and the
exception (if any) that aborted the sequence. -/
def writeFiles (env : Env) (modelChemistry freqScaleFactor : String)
    (rxn : TRxn) : List ArtifactFile × Option PyErr :=
  runWriters
    (rxn.reactant_mols.map (writeCanthermSpecies env modelChemistry) ++
     rxn.product_mols.map (writeCanthermSpecies env modelChemistry) ++
     [writeStatmechTs modelChemistry rxn,
      writeCanthermTs env modelChemistry freqScaleFactor rxn])

/-! ## `run` (the engine invocation and the kinetics-job scan) -/

/-- A job in the engine's `jobList` after execution. -/
inductive CJob where
  | kineticsJob (reaction : RMGReaction)
  | statMechJob
  | otherJob (code : Nat)
  deriving DecidableEq, Repr

/-- Whether a job is an instance of `KineticsJob`. -/
def CJob.isKinetics : CJob → Bool
  | .kineticsJob _ => true
  | _ => false

/-- The outcome of `self.cantherm_job.execute()`: either it returns and
leaves a job list, or it raises an exception with whatever jobs it had
already produced. -/
inductive EngineOutcome where
  | finished (jobs : List CJob)
  | raised (e : PyErr) (jobsSoFar : List CJob)
  deriving DecidableEq, Repr

/-- The scan `for job in jobList: if isinstance(job, KineticsJob):
self.kinetics_job = job` — each kinetics job overwrites the binding, so the
last one is retained; `none` models the attribute never being assigned. -/
def scanKinetics (jobs : List CJob) : Option RMGReaction :=
  jobs.foldl (fun acc j =>
    match j with
    | .kineticsJob r => some r
    | _ => acc) none

/-- Method `run`: invoke the engine with plotting disabled; `except IOError`
catches exactly `IOError`, prints, and falls through to the job-list scan;
every other exception propagates.  The value is the retained
`kinetics_job` binding (its `reaction`), `none` when no kinetics job was
found — which is not an error. -/
def runCantherm (outcome : EngineOutcome) : Except PyErr (Option RMGReaction) :=
  match outcome with
  | .finished jobs => .ok (scanKinetics jobs)
  | .raised .ioError jobs => .ok (scanKinetics jobs)
  | .raised e _ => .error e

/-! ## `set_reactants_and_products` -/

/-- The inner loop of reconciliation for one structure `m`: every result
species whose `label` equals `m.toSMILES()` gets `molecule = [m]`. -/
def bindOne (m : RMGMol) (sps : List RMGSpecies) : List RMGSpecies :=
  sps.map (fun r => if m.toSMILES = r.label then { r with molecule := [m] } else r)

/-- The nested loops of reconciliation: the outer loop runs over the
reaction's own molecule list, the inner loop over the result species. -/
def bindSpecies (ms : List RMGMol) (sps : List RMGSpecies) : List RMGSpecies :=
  ms.foldl (fun acc m => bindOne m acc) sps

/-- Method `set_reactants_and_products`: bind reactants and products onto the
kinetics reaction's species in place, replace `self.reaction.rmg_reaction`
with that (now mutated) kinetics reaction, and return `self.reaction`.  The
original molecule lists of `rmg_reaction` are `rs`/`ps`. -/
def setReactantsAndProducts (rxn : TRxn) (rs ps : List RMGMol)
    (kin : RMGReaction) : TRxn :=
  let kr : RMGReaction :=
    { reactants := bindSpecies rs kin.reactants
      products := bindSpecies ps kin.products }
  { rxn with rmg_reaction := .speciesRxn kr }

/-! ## Specification-side definitions

These are not part of the embedding of the source; they state, independently
of the writer's accumulator loop, what "one declaration per distinct
identifier, first occurrence wins" means, so the loop can be proved
equivalent to them. -/

/-- Keep the first occurrence of every value, dropping later duplicates. -/
def firstDedup {β : Type} [DecidableEq β] : List β → List β
  | [] => []
  | b :: l => b :: (firstDedup l).filter (· ≠ b)

/-- Variant of `firstDedup` that also drops values in `seen`. -/
def firstDedupFrom {β : Type} [DecidableEq β] (seen : List β) : List β → List β
  | [] => []
  | b :: l =>
    if b ∈ seen then firstDedupFrom seen l
    else b :: firstDedupFrom (seen ++ [b]) l

/-- The last element of `ms` whose SMILES equals `lbl`, if any — the
specification-side view of what the sequential rebinding loop leaves behind. -/
def lastMatch (ms : List RMGMol) (lbl : String) : Option RMGMol :=
  (ms.filter (fun m => m.toSMILES = lbl)).getLast?

/-- Specification-side view of reconciliation for one result species:
rebound to the last matching structure, untouched when none matches. -/
def matchFun (ms : List RMGMol) (r : RMGSpecies) : RMGSpecies :=
  ((lastMatch ms r.label).map (fun m => { r with molecule := [m] })).getD r

/-! ## Concrete test structures used by witnesses and counterexamples -/

/-- A lone carbon atom. -/
def catom : RAtom := ⟨"C", []⟩

/-- A lone hydrogen atom. -/
def hatom : RAtom := ⟨"H", []⟩

/-- A lone nitrogen atom (unsupported by `get_atoms`). -/
def natom : RAtom := ⟨"N", []⟩

/-- A C–C triple bond object. -/
def tripleCCBond : Bond := ⟨0, "C", "C", .triple⟩

/-- Two carbon atoms joined by a triple bond, each listing the shared bond. -/
def tripleCCAtoms : List RAtom := [⟨"C", [tripleCCBond]⟩, ⟨"C", [tripleCCBond]⟩]

/-- The H–H single bond object of the dihydrogen structure. -/
def hhBond : Bond := ⟨0, "H", "H", .single⟩

/-- Dihydrogen: two H atoms sharing one bond, so the bond has two incidences
but is one distinct bond. -/
def h2atoms : List RAtom := [⟨"H", [hhBond]⟩, ⟨"H", [hhBond]⟩]

/-- A canonicalization environment for tests: append a distinct
InChIKey-style tail to the SMILES. -/
def env0 : Env := ⟨fun s => s ++ "AA-UHFFFAOYSA-N"⟩

/-- A one-carbon test molecule with the given SMILES. -/
def molC (sm : String) : PyMol := ⟨sm, [catom], 1, 1⟩

/-- A reaction with three reactants and two products (cardinality violation
that the claim says must be rejected). -/
def rxn3 : TRxn :=
  ⟨[molC "C", molC "CC", molC "CCC"], [molC "O", molC "OO"], "rxn1",
   [catom], 1, 2, .mols [] []⟩

/-- A reaction with one reactant and two products. -/
def rxn1 : TRxn :=
  ⟨[molC "C"], [molC "O", molC "OO"], "rxn1", [catom], 1, 2, .mols [] []⟩

/-- A canonicalization environment under which the first reactant and the
first product of `rxnS` share a canonical key. -/
def envS : Env :=
  ⟨fun s => if s = "C" ∨ s = "O" then "KEYONE-UHFFFAOYSA-N"
            else "KEYTWO-UHFFFAOYSA-N"⟩

/-- A two-reactant, two-product reaction whose first reactant and first
product share a species identifier under `envS`. -/
def rxnS : TRxn :=
  ⟨[molC "C", molC "CC"], [molC "O", molC "OO"], "r", [], 1, 1, .mols [] []⟩

/-! ## Dictionary lemmas -/

theorem Dict.sumValues_incr (d : Dict) (k : String) :
    (d.incr k).sumValues = d.sumValues + 1 := by
  induction d with
  | nil => simp [Dict.incr, Dict.sumValues]
  | cons p t ih =>
    obtain ⟨k', v⟩ := p
    by_cases h : k' = k <;> simp [Dict.incr, Dict.sumValues, h] at ih ⊢ <;> omega

theorem Dict.count_incr_self (d : Dict) (k : String) :
    (d.incr k).count k = d.count k + 1 := by
  induction d with
  | nil => simp [Dict.incr, Dict.count]
  | cons p t ih =>
    obtain ⟨k', v⟩ := p
    by_cases h : k' = k <;> simp [Dict.incr, Dict.count, h, ih]

theorem Dict.count_incr_other (d : Dict) (k k' : String) (h : k' ≠ k) :
    (d.incr k).count k' = d.count k' := by
  have hk : ¬ k = k' := fun hh => h hh.symm
  induction d with
  | nil => simp [Dict.incr, Dict.count, hk]
  | cons p t ih =>
    obtain ⟨k1, v⟩ := p
    by_cases h1 : k1 = k
    · subst h1
      simp [Dict.incr, Dict.count, hk]
    · by_cases h2 : k1 = k'
      · subst h2
        simp [Dict.incr, Dict.count, h1]
      · simp [Dict.incr, Dict.count, h1, h2, ih]

/-! ## A `getLast?` helper -/

theorem getLastQ_cons {α : Type} (a : α) (l : List α) :
    (a :: l).getLast? = some (l.getLast?.getD a) := by
  induction l generalizing a with
  | nil => rfl
  | cons b t ih => rw [List.getLast?_cons_cons, ih b]; rfl

/-! ## `get_atoms`: stale-variable semantics (claim C10) -/

/-- Specification-side view of the `atom_type` variable after the loop has
processed `atoms` starting from value `st`: the classification of the most
recent atom that assigned it, else the starting value. -/
def lastAssigned (atoms : List RAtom) (st : Option String) : Option String :=
  match (atoms.filterMap classifyAtom).getLast? with
  | some l => some l
  | none => st

theorem lastAssigned_nil (st : Option String) : lastAssigned [] st = st := rfl

theorem lastAssigned_cons (a : RAtom) (rest : List RAtom) (st : Option String) :
    lastAssigned (a :: rest) st
      = lastAssigned rest (match classifyAtom a with | some s => some s | none => st) := by
  unfold lastAssigned
  cases hc : classifyAtom a with
  | none => simp [hc]
  | some s =>
    simp only [List.filterMap_cons, hc]
    rw [getLastQ_cons]
    cases hg : (rest.filterMap classifyAtom).getLast? <;> simp [hg]

/-- The `atom_type` value the loop ends with is the classification of the
most recent classifiable atom (stale across unclassifiable ones). -/
theorem atomLoop_lastAssigned (atoms : List RAtom) :
    ∀ (st : Option String) (d : Dict) (st' : Option String) (d' : Dict),
      atomLoop atoms (st, d) = .ok (st', d') → st' = lastAssigned atoms st := by
  induction atoms with
  | nil =>
    intro st d st' d' h
    simp [atomLoop] at h
    simp [lastAssigned_nil, h.1]
  | cons a rest ih =>
    intro st d st' d' h
    rw [lastAssigned_cons]
    cases hc : classifyAtom a with
    | some s =>
      simp [atomLoop, atomStep, hc] at h
      simpa using ih (some s) (d.incr s) st' d' h
    | none =>
      cases st with
      | none => simp [atomLoop, atomStep, hc] at h
      | some lbl =>
        simp [atomLoop, atomStep, hc] at h
        simpa using ih (some lbl) (d.incr lbl) st' d' h

/-- C10: `get_atoms` is not total over unsupported elements.  (1) When the
first atom's element is not C, H or O, the whole call raises `NameError`
(the Python `atom_type` variable is unbound).  (2) A later atom of an
unsupported element is not skipped: the loop increments the count of the
stale `atom_type` value and leaves that value unchanged.  (3) The stale
value carried into any iteration is exactly the label assigned by the most
recent preceding C/H/O atom. -/
theorem getAtoms_unsupported_stale :
    (∀ (a : RAtom) (rest : List RAtom),
      a.symbol ∉ (["C", "H", "O"] : List String) →
      getAtomsList (a :: rest) = .error .nameError)
    ∧ (∀ (lbl : String) (d : Dict) (a : RAtom),
      a.symbol ∉ (["C", "H", "O"] : List String) →
      atomStep (some lbl, d) a = .ok (some lbl, d.incr lbl))
    ∧ (∀ (atoms : List RAtom) (st : Option String) (d : Dict)
        (st' : Option String) (d' : Dict),
      atomLoop atoms (st, d) = .ok (st', d') → st' = lastAssigned atoms st) := by
  refine ⟨?_, ?_, fun atoms => atomLoop_lastAssigned atoms⟩
  · intro a rest h
    simp only [List.mem_cons, not_or] at h
    simp [getAtomsList, atomLoop, atomStep, classifyAtom, h.1, h.2.1, h.2.2.1]
  · intro lbl d a h
    simp only [List.mem_cons, not_or] at h
    simp [atomStep, classifyAtom, h.1, h.2.1, h.2.2.1]

/-- Witness for C10 at concrete inputs: a structure whose first atom is
nitrogen raises `NameError`; a nitrogen atom reached with `atom_type = "C"`
is counted under `"C"`; after a carbon atom the stale value is `"C"`. -/
theorem getAtoms_unsupported_stale_witness :
    getAtomsList [natom] = .error .nameError
    ∧ atomStep (some "C", []) natom = .ok (some "C", [("C", 1)])
    ∧ some "C" = lastAssigned [catom, natom] none := by
  refine ⟨getAtoms_unsupported_stale.1 natom [] (by decide), ?_, ?_⟩
  · have h := getAtoms_unsupported_stale.2.1 "C" [] natom (by decide)
    simpa [Dict.incr] using h
  · exact getAtoms_unsupported_stale.2.2 [catom, natom] none [] (some "C") [("C", 2)] (by rfl)

/-! ## `get_atoms` on fully supported structures (claim C2) -/

theorem classifyAtom_supported (a : RAtom)
    (h : a.symbol ∈ (["C", "H", "O"] : List String)) :
    classifyAtom a = some a.symbol := by
  simp only [List.mem_cons, List.not_mem_nil, or_false] at h
  rcases h with h | h | h <;> simp [classifyAtom, h]

/-- Invariant of the `get_atoms` loop over atoms that are all C/H/O: the loop
succeeds, every symbol's count grows by the number of its atoms, and the
total grows by the number of atoms. -/
theorem atomLoop_cho (atoms : List RAtom) :
    ∀ (st : Option String) (d : Dict),
      (∀ a ∈ atoms, a.symbol ∈ (["C", "H", "O"] : List String)) →
      ∃ st' d', atomLoop atoms (st, d) = .ok (st', d')
        ∧ (∀ s, d'.count s = d.count s + (atoms.countP (fun a => a.symbol = s)))
        ∧ d'.sumValues = d.sumValues + atoms.length := by
  induction atoms with
  | nil =>
    intro st d _
    exact ⟨st, d, rfl, fun s => by simp, by simp⟩
  | cons a rest ih =>
    intro st d h
    have ha := classifyAtom_supported a (h a (by simp))
    obtain ⟨st', d', hloop, hcount, hsum⟩ :=
      ih (some a.symbol) (d.incr a.symbol) (fun x hx => h x (by simp [hx]))
    refine ⟨st', d', ?_, ?_, ?_⟩
    · simp [atomLoop, atomStep, ha, hloop]
    · intro s
      rw [hcount s]
      by_cases hs : a.symbol = s
      · subst hs
        rw [Dict.count_incr_self]
        simp [List.countP_cons]
        omega
      · rw [Dict.count_incr_other d a.symbol s (fun hh => hs hh.symm)]
        simp [List.countP_cons, hs]
    · rw [hsum, Dict.sumValues_incr]
      simp
      omega

/-- C2 counterexample: `get_atoms` does not support nitrogen.  On a structure
with one C atom and one N atom it returns `{"C": 2}`: the N atom is counted
under `"C"` and no `"N"` entry exists, although the structure has exactly one
nitrogen atom, so the claim that C, H, O, N, S are each counted under their
own element symbol fails. -/
theorem getAtoms_no_nitrogen_support :
    getAtomsList [catom, natom] = .ok [("C", 2)]
    ∧ Dict.count [("C", 2)] "N" = 0
    ∧ ([catom, natom].countP (fun a => a.symbol = "N")) = 1
    ∧ ([catom, natom].countP
        (fun a => a.symbol ∈ (["C", "H", "O", "N", "S"] : List String))) = 2 := by
  refine ⟨by rfl, by rfl, by rfl, by rfl⟩

/-- C2 (amended): `get_atoms` supports exactly C, H and O.  For a structure
all of whose atoms are carbon, hydrogen or oxygen, it returns a dictionary
that counts every atom under its own element symbol, and the total of all
counts equals the number of the structure's atoms. -/
theorem getAtoms_cho_correct (atoms : List RAtom)
    (h : ∀ a ∈ atoms, a.symbol ∈ (["C", "H", "O"] : List String)) :
    ∃ d, getAtomsList atoms = .ok d
      ∧ (∀ s, d.count s = atoms.countP (fun a => a.symbol = s))
      ∧ d.sumValues = atoms.length := by
  obtain ⟨st', d', hloop, hcount, hsum⟩ := atomLoop_cho atoms none [] h
  refine ⟨d', ?_, ?_, ?_⟩
  · simp [getAtomsList, hloop]
  · intro s
    simpa [Dict.count] using hcount s
  · simpa [Dict.sumValues] using hsum

/-- Witness for C2's amended theorem on the structure C–H–H: the call
succeeds and the total count equals the atom count 3. -/
theorem getAtoms_cho_correct_witness :
    ∃ d, getAtomsList [catom, hatom, hatom] = .ok d
      ∧ d.count "H" = 2 ∧ d.sumValues = 3 := by
  obtain ⟨d, hd, hcount, hsum⟩ :=
    getAtoms_cho_correct [catom, hatom, hatom] (by decide)
  exact ⟨d, hd, by rw [hcount]; rfl, by rw [hsum]; rfl⟩

/-! ## `get_bonds`: bond deduplication and counting (claim C5) -/

/-- Invariant of the `get_bonds` counting loop: when every bond in the list
classifies to some label, the loop succeeds and adds exactly one count per
bond to the dictionary total. -/
theorem bondLoop_covered (bs : List Bond) :
    ∀ (st : Option String) (d : Dict),
      (∀ b ∈ bs, (classifyBond b).isSome) →
      ∃ st' d', bondLoop bs (st, d) = .ok (st', d')
        ∧ d'.sumValues = d.sumValues + bs.length := by
  induction bs with
  | nil => intro st d _; exact ⟨st, d, rfl, by simp⟩
  | cons b rest ih =>
    intro st d h
    obtain ⟨lbl, hlbl⟩ := Option.isSome_iff_exists.mp (h b (by simp))
    obtain ⟨st', d', hloop, hsum⟩ :=
      ih (some lbl) (d.incr lbl) (fun x hx => h x (by simp [hx]))
    refine ⟨st', d', ?_, ?_⟩
    · simp [bondLoop, bondStep, hlbl, hloop]
    · rw [hsum, Dict.sumValues_incr]
      simp
      omega

/-- C5: `get_bonds` counts each bond exactly once even though every bond is
reachable from both endpoint atoms: when each distinct bond classifies to a
label, the call succeeds and the sum of all counts equals the number of
distinct bonds of the structure (the deduplicated incidence list), not the
number of atom–bond incidences. -/
theorem getBonds_counts_distinct_bonds (atoms : List RAtom)
    (h : ∀ b ∈ distinctBonds atoms, (classifyBond b).isSome) :
    ∃ d, getBondsList atoms = .ok d
      ∧ d.sumValues = (distinctBonds atoms).length := by
  obtain ⟨st', d', hloop, hsum⟩ := bondLoop_covered (distinctBonds atoms) none [] h
  refine ⟨d', ?_, ?_⟩
  · simp [getBondsList, hloop]
  · simpa [Dict.sumValues] using hsum

/-- Witness for C5 on dihydrogen, where the one H–H bond is listed at both
atoms: two incidences, one distinct bond, and a total bond count of one. -/
theorem getBonds_counts_distinct_bonds_witness :
    getBondsList h2atoms = .ok [("H-H", 1)]
    ∧ Dict.sumValues [("H-H", 1)] = (distinctBonds h2atoms).length
    ∧ (bondIncidences h2atoms).length = 2
    ∧ (distinctBonds h2atoms).length = 1 := by
  have hc : getBondsList h2atoms = .ok [("H-H", 1)] := by rfl
  obtain ⟨d, hd, hsum⟩ := getBonds_counts_distinct_bonds h2atoms (by decide)
  rw [hc] at hd
  cases hd
  exact ⟨hc, hsum, by rfl, by rfl⟩

/-! ## The dead triple-bond branch (claim C1) -/

theorem singleLabel_subset (s1 s2 l : String) (h : singleLabel s1 s2 = some l) :
    l ∈ (["C-C", "H-H", "C-H", "O-O", "C-O", "O-H", "N-N", "N-C", "N-O", "N-H", "S-S", "S-H"] : List String) := by
  unfold singleLabel at h
  by_cases h1 : s1 = "C" ∧ s2 = "C"
  · rw [if_pos h1] at h
    have hl := Option.some.inj h
    subst hl
    decide
  rw [if_neg h1] at h
  by_cases h2 : s1 = "H" ∧ s2 = "H"
  · rw [if_pos h2] at h
    have hl := Option.some.inj h
    subst hl
    decide
  rw [if_neg h2] at h
  by_cases h3 : (s1 = "C" ∧ s2 = "H") ∨ (s1 = "H" ∧ s2 = "C")
  · rw [if_pos h3] at h
    have hl := Option.some.inj h
    subst hl
    decide
  rw [if_neg h3] at h
  by_cases h4 : s1 = "O" ∧ s2 = "O"
  · rw [if_pos h4] at h
    have hl := Option.some.inj h
    subst hl
    decide
  rw [if_neg h4] at h
  by_cases h5 : (s1 = "C" ∧ s2 = "O") ∨ (s1 = "O" ∧ s2 = "C")
  · rw [if_pos h5] at h
    have hl := Option.some.inj h
    subst hl
    decide
  rw [if_neg h5] at h
  by_cases h6 : (s1 = "H" ∧ s2 = "O") ∨ (s1 = "O" ∧ s2 = "H")
  · rw [if_pos h6] at h
    have hl := Option.some.inj h
    subst hl
    decide
  rw [if_neg h6] at h
  by_cases h7 : s1 = "N" ∧ s2 = "N"
  · rw [if_pos h7] at h
    have hl := Option.some.inj h
    subst hl
    decide
  rw [if_neg h7] at h
  by_cases h8 : (s1 = "C" ∧ s2 = "N") ∨ (s1 = "N" ∧ s2 = "C")
  · rw [if_pos h8] at h
    have hl := Option.some.inj h
    subst hl
    decide
  rw [if_neg h8] at h
  by_cases h9 : (s1 = "O" ∧ s2 = "N") ∨ (s1 = "N" ∧ s2 = "O")
  · rw [if_pos h9] at h
    have hl := Option.some.inj h
    subst hl
    decide
  rw [if_neg h9] at h
  by_cases h10 : (s1 = "H" ∧ s2 = "N") ∨ (s1 = "N" ∧ s2 = "H")
  · rw [if_pos h10] at h
    have hl := Option.some.inj h
    subst hl
    decide
  rw [if_neg h10] at h
  by_cases h11 : s1 = "S" ∧ s2 = "S"
  · rw [if_pos h11] at h
    have hl := Option.some.inj h
    subst hl
    decide
  rw [if_neg h11] at h
  by_cases h12 : (s1 = "H" ∧ s2 = "S") ∨ (s1 = "S" ∧ s2 = "H")
  · rw [if_pos h12] at h
    have hl := Option.some.inj h
    subst hl
    decide
  rw [if_neg h12] at h
  exact Option.noConfusion h

theorem doubleLabel_subset (s1 s2 l : String) (h : doubleLabel s1 s2 = some l) :
    l ∈ (["C=C", "O=O", "C=O", "N=N", "N=C", "N=O", "S=O"] : List String) := by
  unfold doubleLabel at h
  by_cases h1 : s1 = "C" ∧ s2 = "C"
  · rw [if_pos h1] at h
    have hl := Option.some.inj h
    subst hl
    decide
  rw [if_neg h1] at h
  by_cases h2 : s1 = "O" ∧ s2 = "O"
  · rw [if_pos h2] at h
    have hl := Option.some.inj h
    subst hl
    decide
  rw [if_neg h2] at h
  by_cases h3 : (s1 = "C" ∧ s2 = "O") ∨ (s1 = "O" ∧ s2 = "C")
  · rw [if_pos h3] at h
    have hl := Option.some.inj h
    subst hl
    decide
  rw [if_neg h3] at h
  by_cases h4 : s1 = "N" ∧ s2 = "N"
  · rw [if_pos h4] at h
    have hl := Option.some.inj h
    subst hl
    decide
  rw [if_neg h4] at h
  by_cases h5 : (s1 = "C" ∧ s2 = "N") ∨ (s1 = "N" ∧ s2 = "C")
  · rw [if_pos h5] at h
    have hl := Option.some.inj h
    subst hl
    decide
  rw [if_neg h5] at h
  by_cases h6 : (s1 = "O" ∧ s2 = "N") ∨ (s1 = "N" ∧ s2 = "O")
  · rw [if_pos h6] at h
    have hl := Option.some.inj h
    subst hl
    decide
  rw [if_neg h6] at h
  by_cases h7 : (s1 = "O" ∧ s2 = "S") ∨ (s1 = "S" ∧ s2 = "O")
  · rw [if_pos h7] at h
    have hl := Option.some.inj h
    subst hl
    decide
  rw [if_neg h7] at h
  exact Option.noConfusion h

/-- C1 (the code contradicts it): because `elif bond.isDouble:` and
`elif bond.isTriple:` test the bound methods as attributes instead of calling
them, every non-single bond takes the double branch and the `'#'` labels of
the transcribed triple table are unreachable: no bond ever classifies to
`C#C`, `N#N` or `N#C` — even though the dead triple branch would map a C–C
triple bond to `C#C`.  Concretely, on a structure whose single bond is a C–C
triple bond, `get_bonds` returns `{"C=C": 1}` and no `'#'`-label entry. -/
theorem getBonds_triple_branch_unreachable :
    (∀ b : Bond, classifyBond b ≠ some "C#C" ∧ classifyBond b ≠ some "N#N"
      ∧ classifyBond b ≠ some "N#C")
    ∧ tripleLabel "C" "C" = some "C#C"
    ∧ classifyBond tripleCCBond = some "C=C"
    ∧ getBondsList tripleCCAtoms = .ok [("C=C", 1)]
    ∧ Dict.count [("C=C", 1)] "C#C" = 0 := by
  refine ⟨?_, by rfl, by rfl, by rfl, by rfl⟩
  intro b
  have key : ∀ l, classifyBond b = some l →
      l ∈ (["C-C", "H-H", "C-H", "O-O", "C-O", "O-H", "N-N", "N-C", "N-O", "N-H",
            "S-S", "S-H", "C=C", "O=O", "C=O", "N=N", "N=C", "N=O", "S=O"] : List String) := by
    intro l hl
    unfold classifyBond at hl
    by_cases hb : b.order = .single
    · rw [if_pos hb] at hl
      have := singleLabel_subset b.atom1 b.atom2 l hl
      simp only [List.mem_cons, List.mem_singleton] at this ⊢
      tauto
    · rw [if_neg hb] at hl
      have := doubleLabel_subset b.atom1 b.atom2 l hl
      simp only [List.mem_cons, List.mem_singleton] at this ⊢
      tauto
  refine ⟨fun h => ?_, fun h => ?_, fun h => ?_⟩ <;>
    exact absurd (key _ h) (by decide)

/-- Witness for C1's theorem at the concrete triple bond: the live classifier
does not give the C–C triple bond its `'#'` label. -/
theorem getBonds_triple_branch_unreachable_witness :
    classifyBond tripleCCBond ≠ some "C#C" :=
  (getBonds_triple_branch_unreachable.1 tripleCCBond).1

/-! ## `run`: engine failure policy and the kinetics-job scan
(claims C4 and C9) -/

/-- The `reaction` carried by a job when it is a `KineticsJob`. -/
def CJob.kineticsReaction : CJob → Option RMGReaction
  | .kineticsJob r => some r
  | _ => none

/-- The job-list scan keeps the last kinetics job: the fold equals the last
element of the kinetics-typed sublist. -/
theorem scanKinetics_eq_getLast (jobs : List CJob) :
    scanKinetics jobs = (jobs.filterMap CJob.kineticsReaction).getLast? := by
  suffices h : ∀ (acc : Option RMGReaction),
      jobs.foldl (fun acc j => match j with
        | .kineticsJob r => some r
        | _ => acc) acc
      = match (jobs.filterMap CJob.kineticsReaction).getLast? with
        | some r => some r
        | none => acc by
    have := h none
    rw [scanKinetics, this]
    cases (jobs.filterMap CJob.kineticsReaction).getLast? <;> rfl
  induction jobs with
  | nil => intro acc; rfl
  | cons j rest ih =>
    intro acc
    cases j with
    | kineticsJob r =>
      simp only [List.foldl_cons, List.filterMap_cons, CJob.kineticsReaction]
      rw [ih (some r), getLastQ_cons]
      cases hg : (rest.filterMap CJob.kineticsReaction).getLast? <;> simp [hg]
    | statMechJob =>
      simp only [List.foldl_cons, List.filterMap_cons, CJob.kineticsReaction]
      exact ih acc
    | otherJob c =>
      simp only [List.foldl_cons, List.filterMap_cons, CJob.kineticsReaction]
      exact ih acc

/-- C4 counterexample: the engine finishes with a job list containing no
kinetics job, and `run` completes without any error, returning with no
retained kinetics job — not the fatal error the claim requires. -/
theorem run_no_kinetics_not_fatal :
    runCantherm (.finished [.statMechJob]) = .ok none := by rfl

/-- C4 (amended): `run` does not treat the absence of a kinetics job as an
error.  The scan retains the last kinetics-typed job of the engine's job
list; when the list has none, `run` completes normally with the binding
left unset (`none`), deferring any failure to a later attribute access; any
retained value is the reaction of a kinetics job that occurs in the list. -/
theorem run_kinetics_scan (jobs : List CJob) :
    runCantherm (.finished jobs)
      = .ok ((jobs.filterMap CJob.kineticsReaction).getLast?)
    ∧ ((∀ j ∈ jobs, j.isKinetics = false) →
        runCantherm (.finished jobs) = .ok none)
    ∧ (∀ r, scanKinetics jobs = some r → CJob.kineticsJob r ∈ jobs) := by
  refine ⟨?_, ?_, ?_⟩
  · show Except.ok (scanKinetics jobs) = _
    rw [scanKinetics_eq_getLast]
  · intro h
    show Except.ok (scanKinetics jobs) = _
    rw [scanKinetics_eq_getLast]
    have : jobs.filterMap CJob.kineticsReaction = [] := by
      rw [List.filterMap_eq_nil_iff]
      intro j hj
      have := h j hj
      cases j <;> simp [CJob.kineticsReaction, CJob.isKinetics] at this ⊢
    rw [this]
    rfl
  · intro r hr
    rw [scanKinetics_eq_getLast] at hr
    have hmem := List.mem_of_getLast?_eq_some hr
    obtain ⟨j, hj, hjr⟩ := List.mem_filterMap.mp hmem
    cases j with
    | kineticsJob r' =>
      simp [CJob.kineticsReaction] at hjr
      rwa [hjr] at hj
    | statMechJob => simp [CJob.kineticsReaction] at hjr
    | otherJob c => simp [CJob.kineticsReaction] at hjr

/-- Witness for C4's amended theorem: with jobs `[statmech, kinetics r]` the
scan retains `r`; with only a statmech job it retains nothing, erroring in
neither case. -/
theorem run_kinetics_scan_witness :
    runCantherm (.finished [.statMechJob, .kineticsJob ⟨[], []⟩])
      = .ok (some ⟨[], []⟩)
    ∧ runCantherm (.finished [.statMechJob]) = .ok none := by
  constructor
  · rw [(run_kinetics_scan [.statMechJob, .kineticsJob ⟨[], []⟩]).1]
    rfl
  · exact (run_kinetics_scan [.statMechJob]).2.1 (by decide)

/-- C9: the engine invocation's failure policy.  An `IOError` raised by
`execute()` (the plotting-backend failure mode) is caught and logged, and
`run` goes on to scan whatever job list the engine produced; every other
exception propagates out of `run`. -/
theorem run_engine_failure_policy (e : PyErr) (jobs : List CJob) :
    runCantherm (.raised .ioError jobs) = .ok (scanKinetics jobs)
    ∧ (e ≠ .ioError → runCantherm (.raised e jobs) = .error e) := by
  constructor
  · rfl
  · intro h
    cases e with
    | ioError => exact absurd rfl h
    | nameError => rfl
    | indexError => rfl
    | attributeError => rfl
    | otherError c => rfl

/-- Witness for C9 at concrete inputs: a raised `IOError` is swallowed and
the scan still runs; a raised `NameError` propagates. -/
theorem run_engine_failure_policy_witness :
    runCantherm (.raised .ioError [.statMechJob]) = .ok none
    ∧ runCantherm (.raised .nameError [.statMechJob]) = .error .nameError := by
  constructor
  · rw [(run_engine_failure_policy .nameError [.statMechJob]).1]
    rfl
  · exact (run_engine_failure_policy .nameError [.statMechJob]).2 (by decide)

/-! ## Species-identifier normalization (claim C6)

Python's `str.strip("-N")` removes every leading and trailing character in
the set `{'-', 'N'}`; it is not suffix removal. -/

/-- C6 counterexample: on a canonical key whose first character is `N`
(nitrogen-rich compounds produce such InChIKeys), `strip("-N")` removes the
leading `N` as well, so the derived identifier is not the key with the
2-character suffix removed and unchanged otherwise. -/
theorem speciesLabel_strips_leading_chars :
    speciesLabelOfKey "NABCDEFGHIJKLM-UHFFFAOYSA-N" = "ABCDEFGHIJKLM-UHFFFAOYSA"
    ∧ "ABCDEFGHIJKLM-UHFFFAOYSA" ≠ "NABCDEFGHIJKLM-UHFFFAOYSA" := by
  constructor
  · rfl
  · decide

/-- C6 (amended): the identifier is the canonical key with every leading and
trailing `'-'`/`'N'` character removed (Python `strip` set semantics).  In
particular, for a key of the form `s ++ "-N"` whose body `s` neither begins
nor ends with `'-'` or `'N'`, the identifier is exactly `s` — the
2-character-suffix reading is correct on that restricted domain.
Determinism holds: the derivation is a pure function of the key. -/
theorem speciesLabel_suffix_strip (s : String)
    (h1 : ∃ c t, s.data = c :: t ∧ c ≠ '-' ∧ c ≠ 'N')
    (h2 : ∃ c, s.data.getLast? = some c ∧ c ≠ '-' ∧ c ≠ 'N') :
    speciesLabelOfKey (s ++ "-N") = s := by
  obtain ⟨c, t, hs, hc1, hc2⟩ := h1
  obtain ⟨c2, hg, hg1, hg2⟩ := h2
  have hdata : (s ++ "-N").data = s.data ++ ['-', 'N'] := rfl
  rw [speciesLabelOfKey, pyStripChars, hdata, hs]
  rw [List.cons_append, List.dropWhile_cons_of_neg (by simp [hc1, hc2])]
  have hrev : (c :: (t ++ ['-', 'N'])).reverse = 'N' :: '-' :: (c :: t).reverse := by
    simp
  rw [hrev]
  rw [List.dropWhile_cons_of_pos (by decide), List.dropWhile_cons_of_pos (by decide)]
  have hrevhead : ∃ t2, (c :: t).reverse = c2 :: t2 := by
    have hlast : (c :: t).getLast? = some c2 := by rw [← hs]; exact hg
    rw [List.getLast?_eq_head?_reverse] at hlast
    cases hrc : (c :: t).reverse with
    | nil => rw [hrc] at hlast; simp at hlast
    | cons x t2 =>
      rw [hrc] at hlast
      simp at hlast
      exact ⟨t2, by rw [hlast]⟩
  obtain ⟨t2, ht2⟩ := hrevhead
  rw [ht2, List.dropWhile_cons_of_neg (by simp [hg1, hg2]), ← ht2,
    List.reverse_reverse, ← hs]

/-- Witness for C6's amended theorem on a real-shaped InChIKey: stripping
the appended `"-N"` from `XLYOFNOQVPJJNP-UHFFFAOYSA` ++ `"-N"` gives the
body back. -/
theorem speciesLabel_suffix_strip_witness :
    speciesLabelOfKey ("XLYOFNOQVPJJNP-UHFFFAOYSA" ++ "-N")
      = "XLYOFNOQVPJJNP-UHFFFAOYSA" :=
  speciesLabel_suffix_strip ("XLYOFNOQVPJJNP-UHFFFAOYSA")
    ⟨'X', "LYOFNOQVPJJNP-UHFFFAOYSA".data, rfl, by decide, by decide⟩
    ⟨'A', by decide, by decide, by decide⟩

/-! ## Reconciliation (claim C8) -/

/-- One structure's pass commutes with the per-species view: updating a
species for structure `m` and then resolving the remaining structures `ms`
equals resolving `m :: ms` at once, because the loop's later assignments
overwrite earlier ones. -/
theorem matchFun_step (m : RMGMol) (ms : List RMGMol) (r : RMGSpecies) :
    matchFun ms (if m.toSMILES = r.label then { r with molecule := [m] } else r)
      = matchFun (m :: ms) r := by
  by_cases hm : m.toSMILES = r.label
  · cases hg : (List.filter (fun x => decide (x.toSMILES = r.label)) ms).getLast? <;>
      simp [matchFun, lastMatch, List.filter_cons, hm, getLastQ_cons, hg]
  · simp [matchFun, lastMatch, List.filter_cons, hm]

/-- The sequential nested loops of `set_reactants_and_products` are
equivalent to rebinding each result species independently to its last
matching structure. -/
theorem bindSpecies_eq_map_matchFun (ms : List RMGMol) :
    ∀ sps : List RMGSpecies, bindSpecies ms sps = sps.map (matchFun ms) := by
  induction ms with
  | nil =>
    intro sps
    simp only [bindSpecies, List.foldl_nil]
    have hid : sps.map (matchFun []) = sps.map id :=
      List.map_congr_left (fun r _ => by simp [matchFun, lastMatch])
    rw [hid, List.map_id]
  | cons m rest ih =>
    intro sps
    have hstep : bindSpecies (m :: rest) sps = bindSpecies rest (bindOne m sps) := by
      simp [bindSpecies, List.foldl_cons]
    rw [hstep, ih (bindOne m sps), bindOne, List.map_map]
    exact List.map_congr_left (fun r _ => matchFun_step m rest r)

/-- A species whose label matches some structure is rebound to the last such
structure, and that structure really is a matching member; an unmatched
species is left untouched. -/
theorem matchFun_cases (ms : List RMGMol) (r : RMGSpecies) :
    ((∀ m ∈ ms, m.toSMILES ≠ r.label) → matchFun ms r = r)
    ∧ (∀ m, lastMatch ms r.label = some m →
        matchFun ms r = { r with molecule := [m] }
        ∧ m.toSMILES = r.label ∧ m ∈ ms) := by
  constructor
  · intro h
    have hfil : List.filter (fun x => decide (x.toSMILES = r.label)) ms = [] := by
      rw [List.filter_eq_nil_iff]
      intro m hm
      simp [h m hm]
    simp [matchFun, lastMatch, hfil]
  · intro m hm
    have hfm : m ∈ List.filter (fun x => decide (x.toSMILES = r.label)) ms := by
      unfold lastMatch at hm
      exact List.mem_of_getLast?_eq_some hm
    have hmem := List.mem_filter.mp hfm
    refine ⟨?_, by simpa using hmem.2, hmem.1⟩
    simp [matchFun, hm]

/-- C8: `set_reactants_and_products` matches each reactant/product structure
of `rmg_reaction` against the kinetics result's species by exact string
equality of `toSMILES()` with the species `label`, rebinding every matching
species' `molecule` to the (last) matching structure; a structure or species
with no match is skipped without error; finally the reaction's
`rmg_reaction` is replaced by the kinetics result's reaction object and the
reaction itself is returned, with all its other fields unchanged. -/
theorem set_reactants_and_products_spec (rxn : TRxn) (rs ps : List RMGMol)
    (kin : RMGReaction) :
    (setReactantsAndProducts rxn rs ps kin).rmg_reaction
      = .speciesRxn ⟨kin.reactants.map (matchFun rs), kin.products.map (matchFun ps)⟩
    ∧ (∀ r ∈ kin.reactants, (∀ m ∈ rs, m.toSMILES ≠ r.label) → matchFun rs r = r)
    ∧ (∀ r ∈ kin.reactants, ∀ m, lastMatch rs r.label = some m →
        matchFun rs r = { r with molecule := [m] } ∧ m.toSMILES = r.label ∧ m ∈ rs)
    ∧ (setReactantsAndProducts rxn rs ps kin).reactant_mols = rxn.reactant_mols
    ∧ (setReactantsAndProducts rxn rs ps kin).product_mols = rxn.product_mols
    ∧ (setReactantsAndProducts rxn rs ps kin).label = rxn.label := by
  refine ⟨?_, ?_, ?_, rfl, rfl, rfl⟩
  · unfold setReactantsAndProducts
    rw [bindSpecies_eq_map_matchFun rs kin.reactants,
      bindSpecies_eq_map_matchFun ps kin.products]
  · intro r _ h
    exact (matchFun_cases rs r).1 h
  · intro r _ m hm
    exact (matchFun_cases rs r).2 m hm

/-- Witness for C8 on a concrete reaction: a species labeled `"CC"` is
rebound to the structure whose SMILES is `"CC"`, an unmatched species is
untouched, and the reaction's `rmg_reaction` is replaced. -/
theorem set_reactants_and_products_spec_witness :
    (setReactantsAndProducts rxnS [⟨"CC"⟩] [] ⟨[⟨"CC", []⟩, ⟨"X", []⟩], []⟩).rmg_reaction
      = .speciesRxn ⟨[⟨"CC", [⟨"CC"⟩]⟩, ⟨"X", []⟩], []⟩
    ∧ matchFun [⟨"CC"⟩] ⟨"X", []⟩ = ⟨"X", []⟩ := by
  have h := set_reactants_and_products_spec rxnS [⟨"CC"⟩] []
    ⟨[⟨"CC", []⟩, ⟨"X", []⟩], []⟩
  constructor
  · rw [h.1]
    rfl
  · exact h.2.1 ⟨"X", []⟩ (by simp) (by decide)

/-! ## Job-descriptor species deduplication (claim C7) -/

theorem mem_firstDedup {β : Type} [DecidableEq β] (x : β) (l : List β) :
    x ∈ firstDedup l ↔ x ∈ l := by
  induction l with
  | nil => simp [firstDedup]
  | cons b t ih =>
    by_cases hx : x = b
    · simp [firstDedup, hx]
    · simp [firstDedup, hx, List.mem_filter, ih]

theorem nodup_firstDedup {β : Type} [DecidableEq β] (l : List β) :
    (firstDedup l).Nodup := by
  induction l with
  | nil => simp [firstDedup]
  | cons b t ih =>
    refine List.Nodup.cons ?_ (List.Nodup.filter _ ih)
    intro hmem
    have := List.mem_filter.mp hmem
    simp at this

theorem firstDedupFrom_eq_filter {β : Type} [DecidableEq β] (l : List β) :
    ∀ seen : List β,
      firstDedupFrom seen l = (firstDedup l).filter (fun x => x ∉ seen) := by
  induction l with
  | nil => intro seen; simp [firstDedupFrom, firstDedup]
  | cons b t ih =>
    intro seen
    by_cases hb : b ∈ seen
    · rw [show firstDedupFrom seen (b :: t) = firstDedupFrom seen t from by
        simp [firstDedupFrom, hb]]
      rw [ih seen]
      rw [show firstDedup (b :: t) = b :: (firstDedup t).filter (· ≠ b) from rfl]
      rw [List.filter_cons]
      have hbf : (decide (b ∉ seen)) = false := by simp [hb]
      rw [hbf]
      simp only [Bool.false_eq_true, if_false, List.filter_filter]
      apply List.filter_congr
      intro x _
      by_cases hxs : x ∈ seen
      · simp [hxs]
      · have hxb : x ≠ b := fun hh => hxs (hh ▸ hb)
        simp [hxs, hxb]
    · rw [show firstDedupFrom seen (b :: t)
          = b :: firstDedupFrom (seen ++ [b]) t from by simp [firstDedupFrom, hb]]
      rw [ih (seen ++ [b])]
      rw [show firstDedup (b :: t) = b :: (firstDedup t).filter (· ≠ b) from rfl]
      rw [List.filter_cons]
      have hbt : (decide (b ∉ seen)) = true := by simp [hb]
      rw [hbt]
      simp only [if_true, List.filter_filter]
      refine congrArg (b :: ·) ?_
      apply List.filter_congr
      intro x _
      by_cases hxb : x = b
      · simp [hxb]
      · by_cases hxs : x ∈ seen <;> simp [hxb, hxs]

theorem firstDedupFrom_append {β : Type} [DecidableEq β] (l1 l2 : List β) :
    ∀ seen : List β,
      firstDedupFrom seen (l1 ++ l2)
        = firstDedupFrom seen l1
          ++ firstDedupFrom (seen ++ firstDedupFrom seen l1) l2 := by
  induction l1 with
  | nil => intro seen; simp [firstDedupFrom]
  | cons b t ih =>
    intro seen
    rw [List.cons_append]
    by_cases hb : b ∈ seen
    · rw [show firstDedupFrom seen (b :: (t ++ l2)) = firstDedupFrom seen (t ++ l2)
        from by simp [firstDedupFrom, hb]]
      rw [show firstDedupFrom seen (b :: t) = firstDedupFrom seen t
        from by simp [firstDedupFrom, hb]]
      exact ih seen
    · rw [show firstDedupFrom seen (b :: (t ++ l2))
          = b :: firstDedupFrom (seen ++ [b]) (t ++ l2)
        from by simp [firstDedupFrom, hb]]
      rw [show firstDedupFrom seen (b :: t)
          = b :: firstDedupFrom (seen ++ [b]) t
        from by simp [firstDedupFrom, hb]]
      rw [ih (seen ++ [b]), List.cons_append]
      refine congrArg (b :: ·) ?_
      rw [List.append_assoc]
      rfl

/-- The species loop of `write_cantherm_ts` over one molecule list: the
`labels` accumulator it leaves behind, and the labels of the declarations it
emits, are the first-occurrence deduplication of the molecules' labels
relative to the labels already seen. -/
theorem speciesGo_spec (env : Env) (ms : List PyMol) :
    ∀ seen : List String,
      (speciesGo env ms seen).1
        = seen ++ firstDedupFrom seen (ms.map (speciesLabelOf env))
      ∧ (speciesGo env ms seen).2.map Prod.snd
        = firstDedupFrom seen (ms.map (speciesLabelOf env)) := by
  induction ms with
  | nil => intro seen; simp [speciesGo, firstDedupFrom]
  | cons m rest ih =>
    intro seen
    by_cases hm : speciesLabelOf env m ∈ seen
    · have hgo : speciesGo env (m :: rest) seen = speciesGo env rest seen := by
        simp [speciesGo, hm]
      have hfdf : firstDedupFrom seen ((m :: rest).map (speciesLabelOf env))
          = firstDedupFrom seen (rest.map (speciesLabelOf env)) := by
        simp [firstDedupFrom, hm]
      rw [hgo, hfdf]
      exact ih seen
    · have hgo1 : (speciesGo env (m :: rest) seen).1
          = (speciesGo env rest (seen ++ [speciesLabelOf env m])).1 := by
        simp [speciesGo, hm]
      have hgo2 : (speciesGo env (m :: rest) seen).2
          = (m.smiles, speciesLabelOf env m)
            :: (speciesGo env rest (seen ++ [speciesLabelOf env m])).2 := by
        simp [speciesGo, hm]
      have hfdf : firstDedupFrom seen ((m :: rest).map (speciesLabelOf env))
          = speciesLabelOf env m
            :: firstDedupFrom (seen ++ [speciesLabelOf env m])
                (rest.map (speciesLabelOf env)) := by
        simp [firstDedupFrom, hm]
      obtain ⟨ih1, ih2⟩ := ih (seen ++ [speciesLabelOf env m])
      refine ⟨?_, ?_⟩
      · rw [hgo1, hfdf, ih1, List.append_assoc]
        rfl
      · rw [hgo2, hfdf]
        simp only [List.map_cons]
        rw [ih2]

/-- The labels of the job descriptor's species declarations are the
first-occurrence deduplication of the labels of reactants followed by
products. -/
theorem speciesDecls_labels (env : Env) (rxn : TRxn) :
    (speciesDecls env rxn).map Prod.snd
      = firstDedup ((rxn.reactant_mols ++ rxn.product_mols).map
          (speciesLabelOf env)) := by
  unfold speciesDecls
  obtain ⟨h11, h12⟩ := speciesGo_spec env rxn.reactant_mols []
  obtain ⟨h21, h22⟩ :=
    speciesGo_spec env rxn.product_mols ((speciesGo env rxn.reactant_mols []).1)
  rw [List.map_append, h12, h22, h11, List.map_append]
  rw [← firstDedupFrom_append]
  have hnil : ∀ l : List String, firstDedupFrom [] l = firstDedup l := by
    intro l
    rw [firstDedupFrom_eq_filter]
    apply List.filter_eq_self.mpr
    intro x _
    simp
  rw [hnil]

/-- C7: the job descriptor contains exactly one species declaration per
distinct reactant/product identifier, in order of first occurrence over
reactants-then-products; a later molecule sharing an identifier with an
earlier one is skipped.  The declaration labels equal the first-occurrence
deduplication of all labels, are pairwise distinct, and each occurring label
is declared exactly once. -/
theorem write_cantherm_ts_dedup (env : Env) (rxn : TRxn)
    (hr : rxn.reactant_mols.length = 2) (hp : rxn.product_mols.length = 2) :
    (speciesDecls env rxn).map Prod.snd
      = firstDedup ((rxn.reactant_mols ++ rxn.product_mols).map
          (speciesLabelOf env))
    ∧ ((speciesDecls env rxn).map Prod.snd).Nodup
    ∧ (∀ lbl ∈ (rxn.reactant_mols ++ rxn.product_mols).map (speciesLabelOf env),
        ((speciesDecls env rxn).map Prod.snd).count lbl = 1) := by
  refine ⟨speciesDecls_labels env rxn, ?_, ?_⟩
  · rw [speciesDecls_labels env rxn]
    exact nodup_firstDedup _
  · intro lbl hmem
    rw [speciesDecls_labels env rxn]
    exact List.count_eq_one_of_mem (nodup_firstDedup _)
      ((mem_firstDedup lbl _).mpr hmem)

/-- Witness for C7 on `rxnS` under `envS`, where the first reactant and the
first product share the identifier `KEYONE-UHFFFAOYSA`: exactly two species
declarations appear, one per distinct identifier, in first-occurrence
order. -/
theorem write_cantherm_ts_dedup_witness :
    (speciesDecls envS rxnS).map Prod.snd
      = ["KEYONE-UHFFFAOYSA", "KEYTWO-UHFFFAOYSA"]
    ∧ speciesLabelOf envS (molC "C") = speciesLabelOf envS (molC "O") := by
  have h := write_cantherm_ts_dedup envS rxnS (by rfl) (by rfl)
  constructor
  · rw [h.1]
    rfl
  · rfl

/-! ## Cardinality handling in the writers (claim C3) -/

/-- Writers that all succeed contribute their files and pass control on: the
run of an all-ok prefix followed by `l2` writes the prefix's files and ends
the way `l2` ends. -/
theorem runWriters_all_ok (l1 l2 : List (Except PyErr ArtifactFile)) :
    (∀ w ∈ l1, w.isOk = true) →
    (runWriters (l1 ++ l2)).1.length = l1.length + (runWriters l2).1.length
    ∧ (runWriters (l1 ++ l2)).2 = (runWriters l2).2 := by
  induction l1 with
  | nil => intro _; simp
  | cons w t ih =>
    intro h
    have hw : w.isOk = true := h w (by simp)
    obtain ⟨f, hf⟩ : ∃ f, w = .ok f := by
      cases w with
      | ok f => exact ⟨f, rfl⟩
      | error e => simp [Except.isOk, Except.toBool] at hw
    obtain ⟨ih1, ih2⟩ := ih (fun x hx => h x (by simp [hx]))
    subst hf
    have hrw : runWriters (Except.ok f :: (t ++ l2))
        = (f :: (runWriters (t ++ l2)).1, (runWriters (t ++ l2)).2) := rfl
    constructor
    · rw [List.cons_append, hrw]
      simp only [List.length_cons, ih1]
      omega
    · rw [List.cons_append, hrw]
      exact ih2

/-- C3 counterexample: a reaction with three reactants is not rejected.
`write_files` completes without any error and writes all seven artifacts —
three reactant species files, two product species files, the
transition-state file and the job descriptor — silently using only the
first two reactants in the descriptor's reaction declaration. -/
theorem writeFiles_three_reactants_not_rejected :
    rxn3.reactant_mols.length = 3
    ∧ (writeFiles env0 "M06-2X/cc-pVTZ" "0.982" rxn3).2 = none
    ∧ ((writeFiles env0 "M06-2X/cc-pVTZ" "0.982" rxn3).1.map Prod.fst)
      = ["CAA-UHFFFAOYSA.py", "CCAA-UHFFFAOYSA.py", "CCCAA-UHFFFAOYSA.py",
         "OAA-UHFFFAOYSA.py", "OOAA-UHFFFAOYSA.py", "rxn1.py", "rxn1.canth.py"] := by
  refine ⟨rfl, rfl, rfl⟩

/-- C3 (amended): there is no cardinality check.  (1) With a single reactant
the job-descriptor writer raises `IndexError` while building the reaction
declaration, before the descriptor file is opened.  (2) With at least two
reactants and two products the descriptor is written with no complaint —
extra reactants/products are silently dropped from the reaction declaration.
(3) With a single reactant, `write_files` still writes every species
artifact and the transition-state artifact first (when those writers
succeed), and only then dies on the descriptor: artifacts are on disk
despite the claimed pre-write rejection. -/
theorem write_cantherm_ts_cardinality (env : Env) (mc fsf : String) (rxn : TRxn) :
    (rxn.reactant_mols.length = 1 →
      writeCanthermTs env mc fsf rxn = .error .indexError)
    ∧ (2 ≤ rxn.reactant_mols.length → 2 ≤ rxn.product_mols.length →
      ∃ doc, writeCanthermTs env mc fsf rxn = .ok (rxn.label ++ ".canth.py", doc))
    ∧ (rxn.reactant_mols.length = 1 →
      (∀ w ∈ rxn.reactant_mols.map (writeCanthermSpecies env mc)
          ++ rxn.product_mols.map (writeCanthermSpecies env mc)
          ++ [writeStatmechTs mc rxn], w.isOk = true) →
      (writeFiles env mc fsf rxn).1.length
          = rxn.reactant_mols.length + rxn.product_mols.length + 1
      ∧ (writeFiles env mc fsf rxn).2 = some .indexError) := by
  have hone : rxn.reactant_mols.length = 1 →
      writeCanthermTs env mc fsf rxn = .error .indexError := by
    intro h
    obtain ⟨a, ha⟩ : ∃ a, rxn.reactant_mols = [a] := by
      cases hr : rxn.reactant_mols with
      | nil => rw [hr] at h; simp at h
      | cons x t =>
        cases t with
        | nil => exact ⟨x, rfl⟩
        | cons y t2 => rw [hr] at h; simp at h
    simp [writeCanthermTs, ha, listIdx]
  refine ⟨hone, ?_, ?_⟩
  · intro hr hp
    obtain ⟨r0, r1, rt, hre⟩ : ∃ r0 r1 rt, rxn.reactant_mols = r0 :: r1 :: rt := by
      cases hc : rxn.reactant_mols with
      | nil => rw [hc] at hr; simp at hr
      | cons x t =>
        cases t with
        | nil => rw [hc] at hr; simp at hr
        | cons y t2 => exact ⟨x, y, t2, rfl⟩
    obtain ⟨p0, p1, pt, hpe⟩ : ∃ p0 p1 pt, rxn.product_mols = p0 :: p1 :: pt := by
      cases hc : rxn.product_mols with
      | nil => rw [hc] at hp; simp at hp
      | cons x t =>
        cases t with
        | nil => rw [hc] at hp; simp at hp
        | cons y t2 => exact ⟨x, y, t2, rfl⟩
    simp only [writeCanthermTs, hre, hpe, listIdx, List.get?_cons_zero,
      List.get?_cons_succ]
    exact ⟨_, rfl⟩
  · intro h hok
    have hsplit : rxn.reactant_mols.map (writeCanthermSpecies env mc)
        ++ rxn.product_mols.map (writeCanthermSpecies env mc)
        ++ [writeStatmechTs mc rxn, writeCanthermTs env mc fsf rxn]
        = (rxn.reactant_mols.map (writeCanthermSpecies env mc)
            ++ rxn.product_mols.map (writeCanthermSpecies env mc)
            ++ [writeStatmechTs mc rxn])
          ++ [writeCanthermTs env mc fsf rxn] := by
      simp
    obtain ⟨hlen, herr⟩ := runWriters_all_ok
      (rxn.reactant_mols.map (writeCanthermSpecies env mc)
        ++ rxn.product_mols.map (writeCanthermSpecies env mc)
        ++ [writeStatmechTs mc rxn])
      [writeCanthermTs env mc fsf rxn] hok
    have htail : runWriters [writeCanthermTs env mc fsf rxn]
        = ([], some .indexError) := by
      rw [hone h]
      rfl
    have hw : writeFiles env mc fsf rxn
        = runWriters ((rxn.reactant_mols.map (writeCanthermSpecies env mc)
            ++ rxn.product_mols.map (writeCanthermSpecies env mc)
            ++ [writeStatmechTs mc rxn])
          ++ [writeCanthermTs env mc fsf rxn]) := by
      rw [writeFiles]
      exact congrArg runWriters hsplit
    rw [hw]
    constructor
    · rw [hlen, htail]
      simp [h]
      omega
    · rw [herr, htail]

/-- Witness for C3's amended theorem on the one-reactant reaction `rxn1`:
the descriptor writer raises `IndexError`, while `write_files` has already
written the four earlier artifacts (one reactant species file, two product
species files, the TS file). -/
theorem write_cantherm_ts_cardinality_witness :
    writeCanthermTs env0 "M06-2X/cc-pVTZ" "0.982" rxn1 = .error .indexError
    ∧ (writeFiles env0 "M06-2X/cc-pVTZ" "0.982" rxn1).1.length = 4
    ∧ (writeFiles env0 "M06-2X/cc-pVTZ" "0.982" rxn1).2 = some .indexError := by
  have h := write_cantherm_ts_cardinality env0 "M06-2X/cc-pVTZ" "0.982" rxn1
  have h3 := h.2.2 (by rfl) (by decide)
  refine ⟨h.1 (by rfl), ?_, h3.2⟩
  rw [h3.1]
  rfl

end CanTherm
